import Mathlib

/-!
# notesapp: the note list reducer of `src/App.js`

A shallow embedding of the state reducer, the event handlers and the
subscription callbacks of `src/App.js`, followed by theorems about them.

* JavaScript arrays are Lean lists, `Array.prototype.findIndex` returns an
  `Int` (`-1` when nothing matches) and `Array.prototype.slice` takes `Int`
  bounds with the relative-index rule of the language (a negative bound counts
  from the end).
* A handler is a function from the state it reads to the list of effects it
  performs, in program order: dispatched actions, requests to the remote API,
  console output and alerts.  The outcome of an awaited request is an argument
  of the handler.
* `CLIENT_ID` and the value of each `uuid()` call are arguments.
-/

namespace NotesApp

/-! ## Data model -/

/-- A note object: the fields `createNote` writes (`...form`, `clientId`,
`completed`, `id`). -/
structure Note where
  id : String
  name : String
  description : String
  completed : Bool
  clientId : String
  deriving DecidableEq

/-- The `form` object of the state. -/
structure Form where
  name : String
  description : String
  deriving DecidableEq

/-- The reducer state (`initialState` gives its shape). -/
structure State where
  notes : List Note
  loading : Bool
  error : Bool
  form : Form
  deriving DecidableEq

/-- The `name` attribute of the two `Input` elements, the only values
`onChange` passes as `action.name`. -/
inductive FormField where
  | name
  | description
  deriving DecidableEq

/-- The actions of `reducer`, by `action.type`; `OTHER` is any type the
`switch` does not list. -/
inductive Action where
  | SET_NOTES (notes : List Note)
  | ADD_NOTE (note : Note)
  | UPDATE_NOTE (note : Note)
  | DELETE_NOTE (note : Note)
  | RESET_FORM
  | SET_INPUT (field : FormField) (value : String)
  | ERROR
  | OTHER
  deriving DecidableEq

/-- Source: `const initialState = { notes: [], loading: true, error: false, form: ... }`. -/
def initialState : State :=
  { notes := [], loading := true, error := false, form := { name := "", description := "" } }

/-! ## JavaScript array primitives -/

/-- The loop of `Array.prototype.findIndex`, at index `k` of the array. -/
def findIndexFrom {α : Type} (p : α → Bool) : List α → Nat → Int
  | [], _ => -1
  | x :: xs, k => if p x then (k : Int) else findIndexFrom p xs (k + 1)

/-- `arr.findIndex(p)`: the first index whose element satisfies `p`, or `-1`. -/
def findIndex {α : Type} (p : α → Bool) (xs : List α) : Int :=
  findIndexFrom p xs 0

/-- The relative-index rule of `slice`: a negative bound is `max (len + i) 0`,
any other bound is `min i len`. -/
def relIndex (len : Nat) (i : Int) : Nat :=
  if i < 0 then ((len : Int) + i).toNat else min i.toNat len

/-- `arr.slice(start, stop)`; `stop = none` is the one-argument call. -/
def slice {α : Type} (xs : List α) (start : Int) (stop : Option Int) : List α :=
  let k := relIndex xs.length start
  let final :=
    match stop with
    | none => xs.length
    | some e => relIndex xs.length e
  (xs.drop k).take (final - k)

/-! ## The reducer -/

/-- Source: `const reducer = (state, action) => { switch(action.type) ... }`. -/
def reducer (state : State) (action : Action) : State :=
  match action with
  | .SET_NOTES notes => { state with notes := notes, loading := false }
  | .ADD_NOTE note => { state with notes := note :: state.notes }
  | .UPDATE_NOTE note =>
    let updateIndex : Int := findIndex (fun n => n.id == note.id) state.notes
    let notes : List Note :=
      slice state.notes 0 (some updateIndex) ++ note :: slice state.notes (updateIndex + 1) none
    { state with notes := notes }
  | .DELETE_NOTE note =>
    let deleteIndex : Int := findIndex (fun n => n.id == note.id) state.notes
    let notes : List Note :=
      slice state.notes 0 (some deleteIndex) ++ slice state.notes (deleteIndex + 1) none
    { state with notes := notes }
  | .RESET_FORM => { state with form := initialState.form }
  | .SET_INPUT field value =>
    match field with
    | .name => { state with form := { state.form with name := value } }
    | .description => { state with form := { state.form with description := value } }
  | .ERROR => { state with loading := false, error := true }
  | .OTHER => state

/-! ## Handlers -/

/-- A request to the remote API (`API.graphql` with a query or mutation). -/
inductive Request where
  | listNotes
  | CreateNote (input : Note)
  | DeleteNote (id : String)
  | UpdateNote (id : String) (completed : Bool)
  deriving DecidableEq

/-- What a handler does, in program order. -/
inductive Effect where
  | dispatch (action : Action)
  | request (q : Request)
  | consoleLog (msg : String)
  | consoleError
  | alert (msg : String)
  | typeError
  deriving DecidableEq

/-- The tail of every mutation handler: `console.log(msg)` after the awaited
request, `console.error(err)` in the `catch`. -/
def afterRequest (apiOk : Bool) (msg : String) : List Effect :=
  if apiOk then [Effect.consoleLog msg] else [Effect.consoleError]

/-- Source: `fetchNotes`; `resp` is the outcome of the awaited `listNotes`
query, `some items` for `notesData.data.listNotes.items`. -/
def fetchNotes (resp : Option (List Note)) : List Effect :=
  match resp with
  | some items => [Effect.request Request.listNotes, Effect.dispatch (Action.SET_NOTES items)]
  | none => [Effect.request Request.listNotes, Effect.consoleError, Effect.dispatch Action.ERROR]

/-- Source: `createNote`; `freshId` is the value of `uuid()`. -/
def createNote (CLIENT_ID : String) (state : State) (freshId : String) (apiOk : Bool) :
    List Effect :=
  let form := state.form
  if form.name = "" ∨ form.description = "" then
    [Effect.alert "please enter a name and description"]
  else
    let note : Note :=
      { name := form.name, description := form.description,
        clientId := CLIENT_ID, completed := false, id := freshId }
    [Effect.dispatch (Action.ADD_NOTE note), Effect.dispatch Action.RESET_FORM,
      Effect.request (Request.CreateNote note)] ++ afterRequest apiOk "successfully created note!"

/-- Source: `deleteNote = async ({ id }) => ...`. -/
def deleteNote (state : State) (id : String) (apiOk : Bool) : List Effect :=
  let index := findIndex (fun n => n.id == id) state.notes
  let notes := slice state.notes 0 (some index) ++ slice state.notes (index + 1) none
  [Effect.dispatch (Action.SET_NOTES notes), Effect.request (Request.DeleteNote id)]
    ++ afterRequest apiOk "successfully deleted note!"

/-- Source: `updateNote = async (note) => ...`.  `notes[index]` is `undefined`
when `index` is `-1`, and the assignment to its `completed` throws. -/
def updateNote (state : State) (note : Note) (apiOk : Bool) : List Effect :=
  let index := findIndex (fun n => n.id == note.id) state.notes
  if index < 0 then [Effect.typeError]
  else
    match state.notes[index.toNat]? with
    | none => [Effect.typeError]
    | some old =>
      let new : Note := { old with completed := !note.completed }
      let notes := state.notes.set index.toNat new
      [Effect.dispatch (Action.SET_NOTES notes),
        Effect.request (Request.UpdateNote note.id new.completed)]
        ++ afterRequest apiOk "note successfully updated!"

/-- Source: the `next` callback of `onCreateSubscription`. -/
def onCreateNext (CLIENT_ID : String) (note : Note) : List Effect :=
  if CLIENT_ID = note.clientId then [] else [Effect.dispatch (Action.ADD_NOTE note)]

/-- Source: the `next` callback of `onUpdateSubscription`. -/
def onUpdateNext (note : Note) : List Effect :=
  [Effect.dispatch (Action.UPDATE_NOTE note)]

/-- Source: the `next` callback of `onDeleteSubscription`. -/
def onDeleteNext (note : Note) : List Effect :=
  [Effect.dispatch (Action.DELETE_NOTE note)]

/-- Source: `onChange`. -/
def onChange (field : FormField) (value : String) : List Effect :=
  [Effect.dispatch (Action.SET_INPUT field value)]

/-! ## Running handlers -/

/-- The actions a handler dispatches, in order. -/
def dispatched : List Effect → List Action
  | [] => []
  | Effect.dispatch a :: es => a :: dispatched es
  | _ :: es => dispatched es

/-- The requests a handler issues, in order. -/
def requests : List Effect → List Request
  | [] => []
  | Effect.request q :: es => q :: requests es
  | _ :: es => requests es

/-- The state after `useReducer` has applied the dispatched actions in order. -/
def applyEffects (state : State) (es : List Effect) : State :=
  (dispatched es).foldl reducer state

/-- The triggers the store reacts to: the arrival of the `listNotes` result,
the user actions and the three subscription channels. -/
inductive Event where
  | fetchResult (resp : Option (List Note))
  | create (freshId : String) (apiOk : Bool)
  | change (field : FormField) (value : String)
  | delete (id : String) (apiOk : Bool)
  | toggle (note : Note) (apiOk : Bool)
  | remoteCreate (note : Note)
  | remoteUpdate (note : Note)
  | remoteDelete (note : Note)
  deriving DecidableEq

/-- The handler of each event, reading the current state. -/
def handle (CLIENT_ID : String) (state : State) : Event → List Effect
  | .fetchResult resp => fetchNotes resp
  | .create freshId apiOk => createNote CLIENT_ID state freshId apiOk
  | .change field value => onChange field value
  | .delete id apiOk => deleteNote state id apiOk
  | .toggle note apiOk => updateNote state note apiOk
  | .remoteCreate note => onCreateNext CLIENT_ID note
  | .remoteUpdate note => onUpdateNext note
  | .remoteDelete note => onDeleteNext note

/-- One event: run its handler and apply what it dispatches. -/
def step (CLIENT_ID : String) (state : State) (ev : Event) : State :=
  applyEffects state (handle CLIENT_ID state ev)

/-- A sequence of events, processed one at a time. -/
def run (CLIENT_ID : String) (state : State) : List Event → State
  | [] => state
  | ev :: evs => run CLIENT_ID (step CLIENT_ID state ev) evs

/-- The invariant of the data model: no two notes of the list have the same id. -/
def UniqueIds (notes : List Note) : Prop :=
  (notes.map Note.id).Nodup

instance (notes : List Note) : Decidable (UniqueIds notes) := by
  unfold UniqueIds; infer_instance


/-- The note `createNote` builds from the draft. -/
def draftNote (CLIENT_ID : String) (form : Form) (freshId : String) : Note :=
  { id := freshId, name := form.name, description := form.description,
    completed := false, clientId := CLIENT_ID }

/-- The condition on an event under which the list keeps pairwise distinct ids: a loaded
list has distinct ids, a created or remotely created note has an id the list does not hold
(unless the remote note is the echo that is dropped), and a deleted or remotely updated or
deleted id is one the list holds. -/
def Guarded (CLIENT_ID : String) (state : State) : Event → Prop
  | .fetchResult (some items) => UniqueIds items
  | .fetchResult none => True
  | .create freshId _ => freshId ∉ state.notes.map Note.id
  | .change _ _ => True
  | .delete id _ => id ∈ state.notes.map Note.id
  | .toggle _ _ => True
  | .remoteCreate note => note.clientId = CLIENT_ID ∨ note.id ∉ state.notes.map Note.id
  | .remoteUpdate note => note.id ∈ state.notes.map Note.id
  | .remoteDelete note => note.id ∈ state.notes.map Note.id

/-- Every event of the sequence satisfies `Guarded` in the state it is processed in. -/
def GuardedRun (CLIENT_ID : String) (state : State) : List Event → Prop
  | [] => True
  | ev :: evs => Guarded CLIENT_ID state ev ∧ GuardedRun CLIENT_ID (step CLIENT_ID state ev) evs

instance (CLIENT_ID : String) (state : State) (ev : Event) :
    Decidable (Guarded CLIENT_ID state ev) := by
  cases ev with
  | fetchResult resp => cases resp <;> (unfold Guarded; infer_instance)
  | create _ _ => unfold Guarded; infer_instance
  | change _ _ => unfold Guarded; infer_instance
  | delete _ _ => unfold Guarded; infer_instance
  | toggle _ _ => unfold Guarded; infer_instance
  | remoteCreate _ => unfold Guarded; infer_instance
  | remoteUpdate _ => unfold Guarded; infer_instance
  | remoteDelete _ => unfold Guarded; infer_instance

/-- Decision procedure for `GuardedRun`, by recursion on the sequence. -/
def decGuardedRun (CLIENT_ID : String) :
    (state : State) → (evs : List Event) → Decidable (GuardedRun CLIENT_ID state evs)
  | _, [] => isTrue trivial
  | state, ev :: evs =>
    match (inferInstance : Decidable (Guarded CLIENT_ID state ev)),
        decGuardedRun CLIENT_ID (step CLIENT_ID state ev) evs with
    | isTrue h1, isTrue h2 => isTrue ⟨h1, h2⟩
    | isFalse h1, _ => isFalse (fun h => h1 h.1)
    | _, isFalse h2 => isFalse (fun h => h2 h.2)

instance (CLIENT_ID : String) (state : State) (evs : List Event) :
    Decidable (GuardedRun CLIENT_ID state evs) :=
  decGuardedRun CLIENT_ID state evs

/-! ## Sample notes -/

/-- A note with id `a`. -/
def noteA : Note := { id := "a", name := "A", description := "d", completed := false, clientId := "c1" }

/-- A note with id `b`. -/
def noteB : Note := { id := "b", name := "B", description := "e", completed := false, clientId := "c1" }

/-- A note with id `c`, created by another client. -/
def noteC : Note := { id := "c", name := "C", description := "f", completed := true, clientId := "c2" }

/-- A state whose list is `[noteA, noteB]`. -/
def stateAB : State := { initialState with notes := [noteA, noteB], loading := false }

/-- The initial state after the user has typed `A` and `d` into the two inputs. -/
def stateDraft : State :=
  run "c1" initialState [Event.change FormField.name "A", Event.change FormField.description "d"]

/-- A session that uses every operation: typing a draft, creating, loading, a remote create,
a toggle, a remote update, a local delete and a remote delete. -/
def sampleSession : List Event :=
  [Event.change FormField.name "A", Event.change FormField.description "d",
    Event.create "id1" true, Event.fetchResult (some [noteA, noteB]),
    Event.remoteCreate noteC, Event.toggle noteA false,
    Event.remoteUpdate { noteB with name := "B2" }, Event.delete "a" false,
    Event.remoteDelete noteC, Event.fetchResult none]

/-! ## Lemmas on the array primitives -/

theorem findIndexFrom_none {α : Type} (p : α → Bool) (xs : List α) (k : Nat)
    (h : ∀ x ∈ xs, p x = false) : findIndexFrom p xs k = -1 := by
  induction xs generalizing k with
  | nil => rfl
  | cons x xs ih =>
    have hx : p x = false := h x (List.mem_cons_self x xs)
    simp only [findIndexFrom, hx]
    exact ih (k + 1) (fun y hy => h y (List.mem_cons_of_mem x hy))

theorem findIndexFrom_first {α : Type} (p : α → Bool) (l1 l2 : List α) (x : α) (k : Nat)
    (h : ∀ y ∈ l1, p y = false) (hx : p x = true) :
    findIndexFrom p (l1 ++ x :: l2) k = ((k + l1.length : Nat) : Int) := by
  induction l1 generalizing k with
  | nil => simp [findIndexFrom, hx]
  | cons y ys ih =>
    have hy : p y = false := h y (List.mem_cons_self y ys)
    have h3 := ih (k + 1) (fun z hz => h z (List.mem_cons_of_mem y hz))
    have h4 : (y :: ys) ++ x :: l2 = y :: (ys ++ x :: l2) := rfl
    rw [h4]
    simp only [findIndexFrom, hy, List.length_cons]
    rw [h3]
    simp only [Bool.false_eq_true, if_false]
    congr 1
    omega

theorem findIndex_none {α : Type} (p : α → Bool) (xs : List α)
    (h : ∀ x ∈ xs, p x = false) : findIndex p xs = -1 :=
  findIndexFrom_none p xs 0 h

theorem findIndex_first {α : Type} (p : α → Bool) (l1 l2 : List α) (x : α)
    (h : ∀ y ∈ l1, p y = false) (hx : p x = true) :
    findIndex p (l1 ++ x :: l2) = (l1.length : Int) := by
  unfold findIndex
  rw [findIndexFrom_first p l1 l2 x 0 h hx]
  simp

theorem relIndex_nat (len i : Nat) : relIndex len (i : Int) = min i len := by
  have h1 : ¬ ((i : Int) < 0) := by omega
  simp [relIndex, h1]

theorem relIndex_neg_one (len : Nat) : relIndex len (-1) = len - 1 := by
  have h1 : ((-1 : Int) < 0) := by omega
  simp only [relIndex, h1, if_true]
  omega

theorem drop_min_length {α : Type} (xs : List α) (k : Nat) :
    xs.drop (min k xs.length) = xs.drop k := by
  by_cases hk : k ≤ xs.length
  · rw [Nat.min_eq_left hk]
  · have hk2 : xs.length ≤ k := by omega
    rw [Nat.min_eq_right hk2, List.drop_eq_nil_of_le hk2, List.drop_eq_nil_of_le (le_refl _)]

theorem slice_zero_nat {α : Type} (xs : List α) (i : Nat) :
    slice xs 0 (some (i : Int)) = xs.take i := by
  have h0 : relIndex xs.length 0 = 0 := by
    have := relIndex_nat xs.length 0
    simpa using this
  simp only [slice, h0, relIndex_nat, List.drop_zero, Nat.sub_zero]
  rw [List.take_eq_take]
  simp

theorem slice_succ_none {α : Type} (xs : List α) (i : Nat) :
    slice xs ((i : Int) + 1) none = xs.drop (i + 1) := by
  have h1 : relIndex xs.length ((i : Int) + 1) = min (i + 1) xs.length := by
    have := relIndex_nat xs.length (i + 1)
    simpa using this
  simp only [slice, h1]
  rw [drop_min_length]
  apply List.take_of_length_le
  simp only [List.length_drop]
  omega

theorem slice_zero_neg_one {α : Type} (xs : List α) :
    slice xs 0 (some (-1)) = xs.dropLast := by
  have h0 : relIndex xs.length 0 = 0 := by
    have := relIndex_nat xs.length 0
    simpa using this
  simp only [slice, h0, relIndex_neg_one, List.drop_zero, Nat.sub_zero]
  rw [List.dropLast_eq_take]

theorem slice_neg_one_succ_none {α : Type} (xs : List α) :
    slice xs (-1 + 1) none = xs := by
  have h0 : relIndex xs.length 0 = 0 := by
    have := relIndex_nat xs.length 0
    simpa using this
  simp [slice, h0]

/-! ## Lemmas on lists of notes with distinct ids -/

theorem split_at_index {α : Type} (xs : List α) (i : Nat) (x : α) (h : xs[i]? = some x) :
    xs = xs.take i ++ x :: xs.drop (i + 1) := by
  induction xs generalizing i with
  | nil => simp at h
  | cons y ys ih =>
    cases i with
    | zero =>
      simp at h
      simp [h]
    | succ j =>
      simp at h
      have := ih j h
      simp only [List.take_succ_cons, List.drop_succ_cons, List.cons_append]
      rw [← this]

theorem unique_split (notes : List Note) (i : Nat) (old : Note)
    (hU : UniqueIds notes) (hi : notes[i]? = some old) :
    (∀ n ∈ notes.take i, n.id ≠ old.id) ∧ (∀ n ∈ notes.drop (i + 1), n.id ≠ old.id) := by
  have hs := split_at_index notes i old hi
  unfold UniqueIds at hU
  rw [hs, List.map_append, List.map_cons] at hU
  have h1 := List.nodup_append.mp hU
  have h2 := List.nodup_cons.mp h1.2.1
  constructor
  · intro n hn hid
    have hmem : n.id ∈ List.map Note.id (List.take i notes) := List.mem_map_of_mem Note.id hn
    exact h1.2.2 hmem (by rw [hid]; exact List.mem_cons_self _ _)
  · intro n hn hid
    have hmem : n.id ∈ List.map Note.id (List.drop (i + 1) notes) := List.mem_map_of_mem Note.id hn
    exact h2.1 (by rw [← hid]; exact hmem)

theorem findIndex_unique (notes : List Note) (i : Nat) (old : Note) (id : String)
    (hU : UniqueIds notes) (hi : notes[i]? = some old) (hid : old.id = id) :
    findIndex (fun n => n.id == id) notes = (i : Int) := by
  have hs := split_at_index notes i old hi
  have hd := (unique_split notes i old hU hi).1
  have hlen : i < notes.length := by
    rcases Nat.lt_or_ge i notes.length with h | h
    · exact h
    · rw [List.getElem?_eq_none h] at hi
      cases hi
  have h1 : findIndex (fun n => n.id == id) (notes.take i ++ old :: notes.drop (i + 1))
      = ((notes.take i).length : Int) := by
    apply findIndex_first
    · intro y hy
      have := hd y hy
      rw [hid] at this
      simpa using this
    · simpa using hid
  rw [← hs] at h1
  rw [h1, List.length_take, Nat.min_eq_left (le_of_lt hlen)]

theorem findIndex_absent (notes : List Note) (id : String)
    (h : ∀ n ∈ notes, n.id ≠ id) :
    findIndex (fun n => n.id == id) notes = -1 := by
  apply findIndex_none
  intro x hx
  simpa using h x hx

/-- The case of a present id: the two slices around `findIndex` are the notes before and after
position `i`. -/
theorem slices_present (notes : List Note) (i : Nat) (old : Note) (id : String)
    (hU : UniqueIds notes) (hi : notes[i]? = some old) (hid : old.id = id) :
    slice notes 0 (some (findIndex (fun n => n.id == id) notes)) = notes.take i ∧
    slice notes (findIndex (fun n => n.id == id) notes + 1) none = notes.drop (i + 1) := by
  rw [findIndex_unique notes i old id hU hi hid]
  exact ⟨slice_zero_nat notes i, slice_succ_none notes i⟩

/-- The case of an absent id: `findIndex` is `-1`, the first slice drops the last note and the
second is the whole list. -/
theorem slices_absent (notes : List Note) (id : String) (h : ∀ n ∈ notes, n.id ≠ id) :
    slice notes 0 (some (findIndex (fun n => n.id == id) notes)) = notes.dropLast ∧
    slice notes (findIndex (fun n => n.id == id) notes + 1) none = notes := by
  rw [findIndex_absent notes id h]
  exact ⟨slice_zero_neg_one notes, slice_neg_one_succ_none notes⟩

theorem remove_eq_filter (notes : List Note) (i : Nat) (old : Note)
    (hU : UniqueIds notes) (hi : notes[i]? = some old) :
    notes.take i ++ notes.drop (i + 1) = notes.filter (fun n => n.id != old.id) := by
  have hs := split_at_index notes i old hi
  have hd := unique_split notes i old hU hi
  have h1 : (notes.take i).filter (fun n => n.id != old.id) = notes.take i := by
    apply List.filter_eq_self.mpr
    intro n hn
    simpa using hd.1 n hn
  have h2 : (notes.drop (i + 1)).filter (fun n => n.id != old.id) = notes.drop (i + 1) := by
    apply List.filter_eq_self.mpr
    intro n hn
    simpa using hd.2 n hn
  conv_rhs => rw [hs]
  rw [List.filter_append, List.filter_cons, h1, h2]
  simp

/-! ## The reducer on the two index-based cases -/

theorem index_lt_length {α : Type} (xs : List α) (i : Nat) (x : α) (h : xs[i]? = some x) :
    i < xs.length := by
  rcases Nat.lt_or_ge i xs.length with h1 | h1
  · exact h1
  · rw [List.getElem?_eq_none h1] at h
    cases h

theorem reducer_update_present (state : State) (note old : Note) (i : Nat)
    (hU : UniqueIds state.notes) (hi : state.notes[i]? = some old) (hid : old.id = note.id) :
    (reducer state (Action.UPDATE_NOTE note)).notes = state.notes.set i note := by
  have hs := slices_present state.notes i old note.id hU hi hid
  have hlen := index_lt_length state.notes i old hi
  simp only [reducer, hs.1, hs.2]
  rw [List.set_eq_take_append_cons_drop, if_pos hlen]

theorem reducer_delete_present (state : State) (note old : Note) (i : Nat)
    (hU : UniqueIds state.notes) (hi : state.notes[i]? = some old) (hid : old.id = note.id) :
    (reducer state (Action.DELETE_NOTE note)).notes
      = state.notes.take i ++ state.notes.drop (i + 1) := by
  have hs := slices_present state.notes i old note.id hU hi hid
  simp only [reducer, hs.1, hs.2]

theorem reducer_update_absent (state : State) (note : Note)
    (h : ∀ n ∈ state.notes, n.id ≠ note.id) :
    (reducer state (Action.UPDATE_NOTE note)).notes
      = state.notes.dropLast ++ note :: state.notes := by
  have hs := slices_absent state.notes note.id h
  simp only [reducer, hs.1, hs.2]

theorem reducer_delete_absent (state : State) (note : Note)
    (h : ∀ n ∈ state.notes, n.id ≠ note.id) :
    (reducer state (Action.DELETE_NOTE note)).notes = state.notes.dropLast ++ state.notes := by
  have hs := slices_absent state.notes note.id h
  simp only [reducer, hs.1, hs.2]

theorem deleteNote_dispatched (state : State) (id : String) (apiOk : Bool) :
    dispatched (deleteNote state id apiOk)
      = [Action.SET_NOTES (slice state.notes 0 (some (findIndex (fun n => n.id == id) state.notes))
          ++ slice state.notes (findIndex (fun n => n.id == id) state.notes + 1) none)] := by
  cases apiOk <;> simp [deleteNote, afterRequest, dispatched]

theorem mem_ids_index (notes : List Note) (id : String) (h : id ∈ notes.map Note.id) :
    ∃ (i : Nat) (old : Note), notes[i]? = some old ∧ old.id = id := by
  obtain ⟨old, hold, hid⟩ := List.mem_map.mp h
  obtain ⟨i, hi⟩ := List.getElem?_of_mem hold
  exact ⟨i, old, hi, hid⟩

/-! ## Theorems -/

/-- C1 (the code departs from it): `UPDATE_NOTE` for an id that no note of the list has is not
a no-op. On the empty list the result is `[noteC]`, and on `[noteA, noteB]` it is
`[noteA, noteC, noteA, noteB]`: `findIndex` returns `-1`, `slice(0, -1)` is the list without
its last note and `slice(0)` is the whole list. -/
theorem update_unknown_id_changes_list :
    (∀ n ∈ stateAB.notes, n.id ≠ noteC.id) ∧
    (reducer initialState (Action.UPDATE_NOTE noteC)).notes = [noteC] ∧
    (reducer stateAB (Action.UPDATE_NOTE noteC)).notes = [noteA, noteC, noteA, noteB] := by
  decide

/-- C2 (the code departs from it): `DELETE_NOTE` for an id that no note of the list has is not
a no-op on a list of two notes: on `[noteA, noteB]` the result is `[noteA, noteA, noteB]`.
The same list arises in a session: `noteC` arrives on the create channel, the user deletes it
locally, and the delete event for it then arrives on the delete channel. -/
theorem delete_unknown_id_changes_list :
    (∀ n ∈ stateAB.notes, n.id ≠ noteC.id) ∧
    (reducer stateAB (Action.DELETE_NOTE noteC)).notes = [noteA, noteA, noteB] ∧
    (run "c1" stateAB [Event.remoteCreate noteC, Event.delete "c" true]).notes
      = [noteA, noteB] ∧
    (run "c1" stateAB
      [Event.remoteCreate noteC, Event.delete "c" true, Event.remoteDelete noteC]).notes
      = [noteA, noteA, noteB] := by
  decide

/-- C4: when the ids of the list are pairwise distinct and the note at position `i` has the id
of the payload, `UPDATE_NOTE` yields a list of the same length that holds the payload at
position `i` and the previous note at every other position. -/
theorem update_replaces_in_place (state : State) (note old : Note) (i : Nat)
    (hU : UniqueIds state.notes) (hi : state.notes[i]? = some old) (hid : old.id = note.id) :
    (reducer state (Action.UPDATE_NOTE note)).notes.length = state.notes.length ∧
    (reducer state (Action.UPDATE_NOTE note)).notes[i]? = some note ∧
    ∀ j, j ≠ i → (reducer state (Action.UPDATE_NOTE note)).notes[j]? = state.notes[j]? := by
  rw [reducer_update_present state note old i hU hi hid]
  have hlen := index_lt_length state.notes i old hi
  refine ⟨List.length_set _ _ _, List.getElem?_set_self hlen, ?_⟩
  intro j hj
  exact List.getElem?_set_ne (Ne.symm hj)

theorem update_replaces_in_place_witness :
    (reducer stateAB (Action.UPDATE_NOTE { noteB with name := "B2" })).notes.length = 2 ∧
    (reducer stateAB (Action.UPDATE_NOTE { noteB with name := "B2" })).notes[1]?
      = some { noteB with name := "B2" } ∧
    ∀ j, j ≠ 1 →
      (reducer stateAB (Action.UPDATE_NOTE { noteB with name := "B2" })).notes[j]?
        = stateAB.notes[j]? :=
  update_replaces_in_place stateAB { noteB with name := "B2" } noteB 1
    (by decide) (by decide) (by decide)

/-- C5: when the ids of the list are pairwise distinct and `updateNote` is called with the note
the list holds at position `i`, it dispatches one `SET_NOTES` whose list has the same length,
holds at position `i` a note with `completed` negated and the same `id`, `name`, `description`
and `clientId`, and holds the previous note at every other position; the dispatched actions
and the resulting state do not depend on the outcome of the update request. -/
theorem toggle_flips_completed (CLIENT_ID : String) (state : State) (note : Note) (i : Nat)
    (apiOk : Bool) (hU : UniqueIds state.notes) (hi : state.notes[i]? = some note) :
    ∃ (notes' : List Note) (new : Note),
      dispatched (updateNote state note apiOk) = [Action.SET_NOTES notes'] ∧
      (step CLIENT_ID state (Event.toggle note apiOk)).notes = notes' ∧
      notes'.length = state.notes.length ∧
      notes'[i]? = some new ∧
      new.completed = (!note.completed) ∧ new.id = note.id ∧ new.name = note.name ∧
      new.description = note.description ∧ new.clientId = note.clientId ∧
      (∀ j, j ≠ i → notes'[j]? = state.notes[j]?) ∧
      dispatched (updateNote state note true) = dispatched (updateNote state note false) ∧
      step CLIENT_ID state (Event.toggle note true)
        = step CLIENT_ID state (Event.toggle note false) := by
  have hidx := findIndex_unique state.notes i note note.id hU hi rfl
  have hlen := index_lt_length state.notes i note hi
  have hnn : ¬ ((i : Int) < 0) := by omega
  have hd : ∀ b : Bool, dispatched (updateNote state note b)
      = [Action.SET_NOTES (state.notes.set i { note with completed := !note.completed })] := by
    intro b
    cases b <;>
      simp [updateNote, hidx, hi, afterRequest, dispatched]
  refine ⟨state.notes.set i { note with completed := !note.completed },
    { note with completed := !note.completed }, hd apiOk, ?_, List.length_set _ _ _,
    List.getElem?_set_self hlen, rfl, rfl, rfl, rfl, rfl, ?_, ?_, ?_⟩
  · simp [step, handle, applyEffects, hd, reducer]
  · intro j hj
    exact List.getElem?_set_ne (Ne.symm hj)
  · rw [hd true, hd false]
  · simp [step, handle, applyEffects, hd]

theorem toggle_flips_completed_witness :
    ∃ (notes' : List Note) (new : Note),
      dispatched (updateNote stateAB noteB true) = [Action.SET_NOTES notes'] ∧
      (step "c1" stateAB (Event.toggle noteB true)).notes = notes' ∧
      notes'.length = stateAB.notes.length ∧
      notes'[1]? = some new ∧
      new.completed = (!noteB.completed) ∧ new.id = noteB.id ∧ new.name = noteB.name ∧
      new.description = noteB.description ∧ new.clientId = noteB.clientId ∧
      (∀ j, j ≠ 1 → notes'[j]? = stateAB.notes[j]?) ∧
      dispatched (updateNote stateAB noteB true) = dispatched (updateNote stateAB noteB false) ∧
      step "c1" stateAB (Event.toggle noteB true)
        = step "c1" stateAB (Event.toggle noteB false) :=
  toggle_flips_completed "c1" stateAB noteB 1 true (by decide) (by decide)

/-- C6: when the ids of the list are pairwise distinct and `id` occurs in it, the list that the
local `deleteNote` dispatches and the list of `DELETE_NOTE` for a payload with that id are both
the list with the notes of that id filtered out: one note shorter, no note with that id left,
the other notes in their order; the local result does not depend on the outcome of the delete
request. -/
theorem delete_removes_matching (CLIENT_ID : String) (state : State) (id : String) (note : Note)
    (apiOk : Bool) (hU : UniqueIds state.notes) (hmem : id ∈ state.notes.map Note.id)
    (hnote : note.id = id) :
    dispatched (deleteNote state id apiOk)
      = [Action.SET_NOTES (state.notes.filter (fun n => n.id != id))] ∧
    (step CLIENT_ID state (Event.delete id apiOk)).notes
      = state.notes.filter (fun n => n.id != id) ∧
    (reducer state (Action.DELETE_NOTE note)).notes
      = state.notes.filter (fun n => n.id != id) ∧
    (state.notes.filter (fun n => n.id != id)).length + 1 = state.notes.length ∧
    (∀ n ∈ state.notes.filter (fun n => n.id != id), n.id ≠ id) ∧
    (state.notes.filter (fun n => n.id != id)).Sublist state.notes ∧
    step CLIENT_ID state (Event.delete id true) = step CLIENT_ID state (Event.delete id false) := by
  obtain ⟨i, old, hi, hid⟩ := mem_ids_index state.notes id hmem
  have hlen := index_lt_length state.notes i old hi
  have hf := remove_eq_filter state.notes i old hU hi
  rw [hid] at hf
  have hs := slices_present state.notes i old id hU hi hid
  have hd : ∀ b : Bool, dispatched (deleteNote state id b)
      = [Action.SET_NOTES (state.notes.filter (fun n => n.id != id))] := by
    intro b
    rw [deleteNote_dispatched, hs.1, hs.2, hf]
  refine ⟨hd apiOk, ?_, ?_, ?_, ?_, List.filter_sublist _, ?_⟩
  · simp [step, handle, applyEffects, hd, reducer]
  · rw [reducer_delete_present state note old i hU hi (by rw [hid, hnote]), hf]
  · rw [← hf, List.length_append, List.length_take, List.length_drop]
    omega
  · intro n hn
    have := (List.mem_filter.mp hn).2
    simpa using this
  · simp [step, handle, applyEffects, hd]

theorem delete_removes_matching_witness :
    UniqueIds stateAB.notes ∧ "a" ∈ stateAB.notes.map Note.id ∧
    dispatched (deleteNote stateAB "a" true) = [Action.SET_NOTES [noteB]] ∧
    (step "c1" stateAB (Event.delete "a" false)).notes = [noteB] ∧
    (reducer stateAB (Action.DELETE_NOTE noteA)).notes = [noteB] :=
  ⟨by decide, by decide,
    (delete_removes_matching "c1" stateAB "a" noteA true (by decide) (by decide) (by decide)).1,
    (delete_removes_matching "c1" stateAB "a" noteA false (by decide) (by decide) (by decide)).2.1,
    (delete_removes_matching "c1" stateAB "a" noteA true (by decide) (by decide) (by decide)).2.2.1⟩

/-- C7: with a draft whose name and description are both non-empty, `createNote` leads to the
state whose list is the new note followed by the previous notes, whose form is empty and whose
`loading` and `error` are unchanged; the new note has the name and description of the draft,
`completed = false`, the fresh id and `CLIENT_ID`; it is also the input of the one create
request, and the resulting state does not depend on the outcome of that request. -/
theorem create_prepends_and_resets (CLIENT_ID : String) (state : State) (freshId : String)
    (apiOk : Bool) (hn : state.form.name ≠ "") (hd : state.form.description ≠ "") :
    (step CLIENT_ID state (Event.create freshId apiOk)).notes
      = draftNote CLIENT_ID state.form freshId :: state.notes ∧
    (step CLIENT_ID state (Event.create freshId apiOk)).notes.length = state.notes.length + 1 ∧
    (step CLIENT_ID state (Event.create freshId apiOk)).form = { name := "", description := "" } ∧
    (step CLIENT_ID state (Event.create freshId apiOk)).loading = state.loading ∧
    (step CLIENT_ID state (Event.create freshId apiOk)).error = state.error ∧
    requests (createNote CLIENT_ID state freshId apiOk)
      = [Request.CreateNote (draftNote CLIENT_ID state.form freshId)] ∧
    step CLIENT_ID state (Event.create freshId true)
      = step CLIENT_ID state (Event.create freshId false) := by
  have hv : ¬ (state.form.name = "" ∨ state.form.description = "") := by
    intro h
    rcases h with h | h
    · exact hn h
    · exact hd h
  have hdsp : ∀ b : Bool, dispatched (createNote CLIENT_ID state freshId b)
      = [Action.ADD_NOTE (draftNote CLIENT_ID state.form freshId), Action.RESET_FORM] := by
    intro b
    cases b <;> simp [createNote, hv, afterRequest, dispatched, draftNote]
  have hst : ∀ b : Bool, step CLIENT_ID state (Event.create freshId b)
      = { notes := draftNote CLIENT_ID state.form freshId :: state.notes,
          loading := state.loading, error := state.error,
          form := { name := "", description := "" } } := by
    intro b
    simp [step, handle, applyEffects, hdsp, reducer, initialState]
  refine ⟨?_, ?_, ?_, ?_, ?_, ?_, ?_⟩
  · rw [hst]
  · rw [hst]; simp
  · rw [hst]
  · rw [hst]
  · rw [hst]
  · cases apiOk <;> simp [createNote, hv, afterRequest, requests, draftNote]
  · rw [hst true, hst false]

theorem create_prepends_and_resets_witness :
    stateDraft.notes = [] ∧ stateDraft.form = { name := "A", description := "d" } ∧
    (step "c1" stateDraft (Event.create "id1" false)).notes
      = [{ id := "id1", name := "A", description := "d", completed := false, clientId := "c1" }] ∧
    (step "c1" stateDraft (Event.create "id1" false)).form = { name := "", description := "" } :=
  ⟨by decide, by decide,
    (create_prepends_and_resets "c1" stateDraft "id1" false (by decide) (by decide)).1,
    (create_prepends_and_resets "c1" stateDraft "id1" false (by decide) (by decide)).2.2.1⟩

/-- C8: on the create channel, a note whose `clientId` is `CLIENT_ID` dispatches nothing and
leaves the state as it is; a note with any other `clientId` leads to the list that is this note
followed by the previous notes, the rest of the state unchanged. -/
theorem remote_create_echo_suppression (CLIENT_ID : String) (state : State) (note : Note) :
    (note.clientId = CLIENT_ID →
      dispatched (onCreateNext CLIENT_ID note) = [] ∧
      step CLIENT_ID state (Event.remoteCreate note) = state) ∧
    (note.clientId ≠ CLIENT_ID →
      (step CLIENT_ID state (Event.remoteCreate note)).notes = note :: state.notes ∧
      (step CLIENT_ID state (Event.remoteCreate note)).notes.length = state.notes.length + 1 ∧
      step CLIENT_ID state (Event.remoteCreate note)
        = { state with notes := note :: state.notes }) := by
  constructor
  · intro h
    simp [step, handle, applyEffects, onCreateNext, h, dispatched]
  · intro h
    have h2 : ¬ (CLIENT_ID = note.clientId) := fun e => h e.symm
    simp [step, handle, applyEffects, onCreateNext, h2, dispatched, reducer]

theorem remote_create_echo_suppression_witness :
    step "c1" stateAB (Event.remoteCreate noteA) = stateAB ∧
    (step "c1" stateAB (Event.remoteCreate noteC)).notes = [noteC, noteA, noteB] :=
  ⟨((remote_create_echo_suppression "c1" stateAB noteA).1 (by decide)).2,
    ((remote_create_echo_suppression "c1" stateAB noteC).2 (by decide)).1⟩

/-- C9: with a draft whose name or description is empty, `createNote` dispatches no action and
issues no request (it only raises the alert), so the state, its list and its form included, is
unchanged. -/
theorem create_validation (CLIENT_ID : String) (state : State) (freshId : String) (apiOk : Bool)
    (h : state.form.name = "" ∨ state.form.description = "") :
    createNote CLIENT_ID state freshId apiOk = [Effect.alert "please enter a name and description"] ∧
    dispatched (createNote CLIENT_ID state freshId apiOk) = [] ∧
    requests (createNote CLIENT_ID state freshId apiOk) = [] ∧
    step CLIENT_ID state (Event.create freshId apiOk) = state := by
  have he : createNote CLIENT_ID state freshId apiOk
      = [Effect.alert "please enter a name and description"] := by
    simp [createNote, h]
  refine ⟨he, ?_, ?_, ?_⟩
  · rw [he]; rfl
  · rw [he]; rfl
  · simp [step, handle, applyEffects, he, dispatched]

theorem create_validation_witness :
    (run "c1" initialState [Event.change FormField.name "A"]).form.description = "" ∧
    dispatched (createNote "c1" (run "c1" initialState [Event.change FormField.name "A"])
      "id1" true) = [] ∧
    requests (createNote "c1" (run "c1" initialState [Event.change FormField.name "A"])
      "id1" true) = [] :=
  ⟨by decide,
    (create_validation "c1" (run "c1" initialState [Event.change FormField.name "A"]) "id1" true
      (Or.inr (by decide))).2.1,
    (create_validation "c1" (run "c1" initialState [Event.change FormField.name "A"]) "id1" true
      (Or.inr (by decide))).2.2.1⟩

/-! ## The unique-id invariant -/

theorem map_id_set (notes : List Note) (k : Nat) (old new : Note)
    (hk : notes[k]? = some old) (hid : new.id = old.id) :
    (notes.set k new).map Note.id = notes.map Note.id := by
  induction notes generalizing k with
  | nil => simp
  | cons y ys ih =>
    cases k with
    | zero =>
      simp at hk
      simp [hk, hid]
    | succ j =>
      simp at hk
      simp [ih j hk]

theorem unique_remove (notes : List Note) (i : Nat) (hU : UniqueIds notes) :
    UniqueIds (notes.take i ++ notes.drop (i + 1)) := by
  have hsub : (notes.take i ++ notes.drop (i + 1)).Sublist notes := by
    have h1 : (notes.drop (i + 1)).Sublist (notes.drop i) := by
      rw [← List.drop_drop 1 i notes]
      exact List.drop_sublist 1 _
    have h2 := List.Sublist.append (List.Sublist.refl (notes.take i)) h1
    rwa [List.take_append_drop] at h2
  exact List.Nodup.sublist (List.Sublist.map Note.id hsub) hU

theorem toggle_keeps_ids (CLIENT_ID : String) (state : State) (note : Note) (apiOk : Bool) :
    (step CLIENT_ID state (Event.toggle note apiOk)).notes.map Note.id
      = state.notes.map Note.id := by
  simp only [step, handle, applyEffects, updateNote]
  split
  · rfl
  · split
    · rfl
    · rename_i old hold
      have hm := map_id_set state.notes _ old { old with completed := !note.completed } hold rfl
      cases apiOk <;> simpa [afterRequest, dispatched, reducer] using hm

theorem step_preserves_unique (CLIENT_ID : String) (state : State) (ev : Event)
    (hU : UniqueIds state.notes) (hg : Guarded CLIENT_ID state ev) :
    UniqueIds (step CLIENT_ID state ev).notes := by
  cases ev with
  | fetchResult resp =>
    cases resp with
    | none => simpa [step, handle, applyEffects, fetchNotes, dispatched, reducer] using hU
    | some items => simpa [step, handle, applyEffects, fetchNotes, dispatched, reducer] using hg
  | create freshId apiOk =>
    by_cases hv : state.form.name = "" ∨ state.form.description = ""
    · simpa [step, handle, applyEffects, createNote, hv, dispatched] using hU
    · have hfresh : freshId ∉ state.notes.map Note.id := hg
      have hc : UniqueIds (draftNote CLIENT_ID state.form freshId :: state.notes) := by
        unfold UniqueIds
        rw [List.map_cons]
        exact List.nodup_cons.mpr ⟨hfresh, hU⟩
      cases apiOk <;>
        simpa [step, handle, applyEffects, createNote, hv, afterRequest, dispatched, reducer,
          draftNote] using hc
  | change field value =>
    cases field <;> simpa [step, handle, applyEffects, onChange, dispatched, reducer] using hU
  | delete id apiOk =>
    obtain ⟨i, old, hi, hid⟩ := mem_ids_index state.notes id hg
    have hs := slices_present state.notes i old id hU hi hid
    have hr := unique_remove state.notes i hU
    simpa [step, handle, applyEffects, deleteNote_dispatched, hs.1, hs.2, reducer] using hr
  | toggle note apiOk =>
    unfold UniqueIds
    rw [toggle_keeps_ids]
    exact hU
  | remoteCreate note =>
    by_cases hc : CLIENT_ID = note.clientId
    · simpa [step, handle, applyEffects, onCreateNext, hc, dispatched] using hU
    · have hfresh : note.id ∉ state.notes.map Note.id := by
        rcases hg with h | h
        · exact absurd h.symm hc
        · exact h
      have hcons : UniqueIds (note :: state.notes) := by
        unfold UniqueIds
        rw [List.map_cons]
        exact List.nodup_cons.mpr ⟨hfresh, hU⟩
      simpa [step, handle, applyEffects, onCreateNext, hc, dispatched, reducer] using hcons
  | remoteUpdate note =>
    obtain ⟨i, old, hi, hid⟩ := mem_ids_index state.notes note.id hg
    have hr := reducer_update_present state note old i hU hi hid
    have hm := map_id_set state.notes i old note hi hid.symm
    have : UniqueIds (state.notes.set i note) := by
      unfold UniqueIds
      rw [hm]
      exact hU
    simpa [step, handle, applyEffects, onUpdateNext, dispatched, hr] using this
  | remoteDelete note =>
    obtain ⟨i, old, hi, hid⟩ := mem_ids_index state.notes note.id hg
    have hr := reducer_delete_present state note old i hU hi hid
    have := unique_remove state.notes i hU
    simpa [step, handle, applyEffects, onDeleteNext, dispatched, hr] using this

/-- C3 (amended): the list of the initial state has pairwise distinct ids, and from any state
whose list has pairwise distinct ids, every sequence of events each of which satisfies
`Guarded` when it is processed (a loaded list with distinct ids; a created or remotely created
note whose id the list does not hold, or a dropped echo; a local delete, remote update or
remote delete of an id the list holds; any toggle, input change or failed load) leads to a
state whose list has pairwise distinct ids. -/
theorem unique_ids_invariant (CLIENT_ID : String) (state : State) (evs : List Event)
    (hU : UniqueIds state.notes) (hg : GuardedRun CLIENT_ID state evs) :
    UniqueIds initialState.notes ∧ UniqueIds (run CLIENT_ID state evs).notes := by
  refine ⟨List.nodup_nil, ?_⟩
  induction evs generalizing state with
  | nil => exact hU
  | cons ev evs ih =>
    exact ih (step CLIENT_ID state ev) (step_preserves_unique CLIENT_ID state ev hU hg.1) hg.2

theorem unique_ids_invariant_witness :
    GuardedRun "c1" initialState sampleSession ∧
    (run "c1" initialState sampleSession).notes = [{ noteB with name := "B2" }] ∧
    UniqueIds (run "c1" initialState sampleSession).notes :=
  ⟨by decide, by decide,
    (unique_ids_invariant "c1" initialState sampleSession (by decide) (by decide)).2⟩

/-- C3 as stated fails: after a load that returns `[noteC]` (distinct ids), a create event for
`noteC`, whose `clientId` is not the local one, passes the client-id check and is prepended,
so the list holds two notes with the id of `noteC`. -/
theorem unique_ids_broken_by_remote_create :
    UniqueIds (run "c1" initialState [Event.fetchResult (some [noteC])]).notes ∧
    noteC.clientId ≠ "c1" ∧
    (run "c1" initialState [Event.fetchResult (some [noteC]), Event.remoteCreate noteC]).notes
      = [noteC, noteC] ∧
    ¬ UniqueIds
      (run "c1" initialState [Event.fetchResult (some [noteC]), Event.remoteCreate noteC]).notes := by
  decide

/-- C10 (amended): in every state reached from the initial state by a sequence of events, a
successful load leads to a state whose list is exactly the returned items and whose `loading`
is false; a failed load leads to a state with `error = true`, `loading = false` and the list
unchanged, which is the empty list when the failure arrives in the initial state. -/
theorem fetch_outcome (CLIENT_ID : String) (evs : List Event) (items : List Note) :
    (step CLIENT_ID (run CLIENT_ID initialState evs) (Event.fetchResult (some items))).notes
      = items ∧
    (step CLIENT_ID (run CLIENT_ID initialState evs) (Event.fetchResult (some items))).loading
      = false ∧
    (step CLIENT_ID (run CLIENT_ID initialState evs) (Event.fetchResult none)).error = true ∧
    (step CLIENT_ID (run CLIENT_ID initialState evs) (Event.fetchResult none)).loading = false ∧
    (step CLIENT_ID (run CLIENT_ID initialState evs) (Event.fetchResult none)).notes
      = (run CLIENT_ID initialState evs).notes ∧
    (step CLIENT_ID initialState (Event.fetchResult none)).notes = [] := by
  simp [step, handle, applyEffects, fetchNotes, dispatched, reducer, initialState]

/-- C10 as stated fails: a note created by another client arrives while the load is in
flight, then the load fails; the resulting state has `error = true` and `loading = false`,
and its list is `[noteC]`, not the empty list. -/
theorem fetch_failure_keeps_notes :
    (run "c1" initialState [Event.remoteCreate noteC, Event.fetchResult none]).error = true ∧
    (run "c1" initialState [Event.remoteCreate noteC, Event.fetchResult none]).loading = false ∧
    (run "c1" initialState [Event.remoteCreate noteC, Event.fetchResult none]).notes = [noteC] ∧
    (run "c1" initialState [Event.remoteCreate noteC, Event.fetchResult none]).notes ≠ [] := by
  decide

end NotesApp
